import Mathlib

set_option maxRecDepth 10000

/-
Verification of the markdown transform plugin
(src/packages/.vitepress/plugins/markdownTransform.ts).

Strings of the JavaScript source are modelled as `List Char`.  The external
collaborators of the transform (the prettier `format` call, `ts.transpileModule`
and the `twoslasher`) are not part of this repository; following the design
document they are taken as parameters of the embedding: `fmt` returns `none`
when the call would throw, `transpile` models `ts.transpileModule` (an API
without a failure path: it always produces output text), and `twoslash` models
`twoslasher(code, 'ts').code`.
-/

/-- A JavaScript string, modelled as its list of characters. -/
abbrev Str := List Char

/-- The backquote character (written via its code point). -/
def backquote : Char := Char.ofNat 96

/-- The opening-fence text `"\n‵‵‵ts"` that starts every match of the
block-scanning regular expression. -/
def fenceTsOpen : Str := "\n```ts".data

/-- The closing-fence text `"\n‵‵‵\n"` that ends every match of the
block-scanning regular expression. -/
def closeFence : Str := "\n```\n".data

/-- Model of JavaScript `String.prototype.trim`: drop whitespace from both
ends of the string. -/
def jsTrim (s : Str) : Str :=
  ((s.dropWhile Char.isWhitespace).reverse.dropWhile Char.isWhitespace).reverse

/-- Model of JavaScript `String.prototype.toLowerCase` (character-wise, which
agrees with JavaScript on the ASCII identifiers compared here). -/
def jsToLower (s : Str) : Str := s.map Char.toLower

/-- `meta.trim().toLowerCase()` as computed by the source. -/
def lowerTrim (s : Str) : Str := jsToLower (jsTrim s)

/-- The marker token compared against the trimmed, lowercased fence meta. -/
def twoslashTok : Str := "twoslash".data

/-- Helper of `collapseNewlines`: the flag records whether the previous
character belonged to a newline run already emitted as a single `\n`. -/
def collapseNewlinesAux : Bool → Str → Str
  | _, [] => []
  | inRun, c :: r =>
    if c = '\n' then
      if inRun then collapseNewlinesAux true r
      else '\n' :: collapseNewlinesAux true r
    else c :: collapseNewlinesAux false r

/-- Model of `snippet.replace(/\n+/g, '\n')`: every run of consecutive
newlines is collapsed to a single newline. -/
def collapseNewlines (s : Str) : Str := collapseNewlinesAux false s

/-- Index of the first position of `l` at which `pat` starts, if any. -/
def findFrom (pat : Str) : Str → Option Nat
  | [] => if pat.isPrefixOf ([] : Str) then some 0 else none
  | c :: r =>
    if pat.isPrefixOf (c :: r) then some 0
    else (findFrom pat r).map (fun n => n + 1)

/-- Parse the part of the fence-opening line that follows `"\n‵‵‵ts"`, i.e.
the regex fragment `( [^\n]+)?\n`.  Returns the captured meta group (with its
leading space, `[]` when the group did not participate) and the remaining
input after the newline.  Mirrors the backtracking of the JavaScript engine:
the greedy group is tried first and, because a shorter `[^\n]+` run can never
be followed by `\n`, failing it falls back to the empty group. -/
def parseMeta : Str → Option (Str × Str)
  | ' ' :: r =>
    match r.dropWhile (fun d => ¬ d = '\n') with
    | '\n' :: rest =>
      if r.takeWhile (fun d => ¬ d = '\n') = [] then none
      else some (' ' :: r.takeWhile (fun d => ¬ d = '\n'), rest)
    | _ => none
  | '\n' :: rest => some (([] : Str), rest)
  | _ => none

/-- Attempt to match the block regex `\n‵‵‵ts( [^\n]+)?\n(.+?)\n‵‵‵\n`
(flags `gs`) at the start of `s`.  The lazy body group takes the least
nonempty text such that the closing fence follows.  Returns
`(meta, body, rest-of-input)` on success. -/
def tryMatchAt (s : Str) : Option (Str × Str × Str) :=
  if fenceTsOpen.isPrefixOf s then
    match parseMeta (s.drop 6) with
    | some (meta, r) =>
      match findFrom closeFence (r.drop 1) with
      | some m => some (meta, r.take (m + 1), r.drop (m + 1 + 5))
      | none => none
    | none => none
  else none

/-- The first match of the block regex at or after the start of `s`:
the text before the match (the gap), the meta group, the body group and the
rest of the input after the match.  The scan advances one character at a
time, exactly like the regex engine's search loop. -/
def scanNext : Str → Option (Str × Str × Str × Str)
  | [] => none
  | c :: r =>
    match tryMatchAt (c :: r) with
    | some (meta, body, rest) => some (([] : Str), meta, body, rest)
    | none =>
      (scanNext r).map (fun p => (c :: p.1, p.2.1, p.2.2.1, p.2.2.2))

/-- The full text of a regex match with meta group `meta` and body group
`body`: `"\n‵‵‵ts" ++ meta ++ "\n" ++ body ++ "\n‵‵‵\n"`. -/
def matchText (meta body : Str) : Str :=
  fenceTsOpen ++ meta ++ '\n' :: (body ++ closeFence)

/-- Iterate `scanNext` on the rest of the input after each match.  Every
match consumes at least one character (`scanNext_shrink`), so a fuel equal to
the input length always suffices; fuel is used only to make the recursion
structural. -/
def scanAllAux : Nat → Str → List (Str × Str × Str) × Str
  | 0, s => ([], s)
  | fuel + 1, s =>
    match scanNext s with
    | none => ([], s)
    | some (gap, meta, body, rest) =>
      ((gap, meta, body) :: (scanAllAux fuel rest).1, (scanAllAux fuel rest).2)

/-- All matches of the global block regex, in input order, each with the gap
of unmatched text before it, together with the trailing unmatched text.
Models the search loop of `String.prototype.replace` with a `g`-flagged
regex: each search resumes right after the previous match. -/
def scanAll (s : Str) : List (Str × Str × Str) × Str := scanAllAux s.length s

/-- The transpile-ready snippet of a block: the body, with the twoslasher
applied first when the trimmed, lowercased fence meta equals `twoslash`
(mirrors `if (meta.trim().toLowerCase() === 'twoslash') snippet =
twoslasher(snippet, 'ts').code`). -/
def strippedOf (tw : Str → Str) (meta body : Str) : Str :=
  if lowerTrim meta = twoslashTok then tw body else body

/-- `formattedTS` of a block: format the newline-collapsed, transpile-ready
snippet and trim the result; `none` when the formatter throws. -/
def formattedTSOf (fmt : Str → Option Str) (tw : Str → Str) (meta body : Str) :
    Option Str :=
  (fmt (collapseNewlines (strippedOf tw meta body))).map jsTrim

/-- `formattedJS` of a block: transpile `formattedTS`, format the output text
and trim; `none` when either formatter call throws. -/
def formattedJSOf (fmt : Str → Option Str) (transpile tw : Str → Str)
    (meta body : Str) : Option Str :=
  (formattedTSOf fmt tw meta body).bind fun t => (fmt (transpile t)).map jsTrim

/-- The TypeScript pane of the emitted toggle structure, exactly as the
template writes it (note the space between `ts` and the interpolated meta,
and that the interpolated snippet is the possibly twoslash-processed one). -/
def tsPaneRegion (meta snippet : Str) : Str :=
  "\n```ts ".data ++ meta ++ "\n".data ++ snippet ++ "\n```\n".data

/-- The replacement emitted for a diverged block: the template literal
`\n<CodeToggle>…</CodeToggle>\n` with the TS pane (processed snippet) and the
JS pane (`formattedJS`). -/
def divergedBlock (meta snippet formattedJS : Str) : Str :=
  "\n<CodeToggle>\n<div class=\"code-block-ts\">\n".data
    ++ tsPaneRegion meta snippet
    ++ "\n</div>\n<div class=\"code-block-js\">\n\n```js\n".data
    ++ formattedJS
    ++ "\n```\n\n</div>\n</CodeToggle>\n".data

/-- The async replacer invoked for one matched block (the body of the arrow
function passed to `replaceAsync`): strips twoslash notations when flagged,
formats the TS, transpiles, formats the JS, and returns the whole original
match when the two formatted strings are equal, the toggle structure
otherwise.  `none` models a rejected promise (a thrown format error). -/
def rewriteBlock (fmt : Str → Option Str) (transpile tw : Str → Str)
    (meta body : Str) : Option Str :=
  match formattedTSOf fmt tw meta body with
  | none => none
  | some formattedTS =>
    match (fmt (transpile formattedTS)).map jsTrim with
    | none => none
    | some formattedJS =>
      if formattedJS = formattedTS then some (matchText meta body)
      else some (divergedBlock meta (strippedOf tw meta body) formattedJS)

/-- `Promise.all` over the per-block replacer results, in match order:
`some` of the list of resolved replacement strings, or `none` as soon as any
block's promise rejects. -/
def collectReplacements (f : Str → Str → Option Str) :
    List (Str × Str × Str) → Option (List Str)
  | [] => some []
  | (_, meta, body) :: ms =>
    match f meta body, collectReplacements f ms with
    | some r, some rs => some (r :: rs)
    | _, _ => none

/-- The final substitution pass of `replaceAsync`: the i-th match (with its
preceding gap kept) is replaced by the i-th resolved replacement, and the
trailing unmatched text is kept. -/
def splice : List (Str × Str × Str) → List Str → Str → Str
  | (gap, _, _) :: ms, r :: rs, tail => gap ++ r ++ splice ms rs tail
  | _, _, tail => tail

/-- Model of `replaceAsync(code, regex, replacer)`: collect all matches of
the original text, resolve every replacement, then splice all replacements
into the original text in match order.  `none` models the rejection of the
returned promise. -/
def replaceTS (f : Str → Str → Option Str) (s : Str) : Option Str :=
  (collectReplacements f (scanAll s).1).map fun rs =>
    splice (scanAll s).1 rs (scanAll s).2

/-- The replacement text for a linkified function-name reference:
`[‵name‵](docs) ` — note the trailing space, and that the matched character
after the closing backquote is not re-emitted. -/
def linkRepl (fn : Str × Str) : Str :=
  '[' :: backquote :: (fn.1 ++ backquote :: ']' :: '(' :: (fn.2 ++ ") ".data))

/-- The left-brace character (written via its code point). -/
def lbrace : Char := Char.ofNat 123

/-- The right-brace character (written via its code point). -/
def rbrace : Char := Char.ofNat 125

/-- Prepend the literal left brace to the first alternative. -/
def braceFirst : List Str → List Str
  | [] => []
  | n :: rest => (lbrace :: n) :: rest

/-- Append the literal right brace to the last alternative. -/
def braceLast : List Str → List Str
  | [] => []
  | [n] => [n ++ [rbrace]]
  | n :: rest => n :: braceLast rest

/-- The alternatives of the capture group the source builds on line 32.  The
template literal interpolates `functionNames.join('|')` between a literal
`\x7b` and a literal `\x7d`, so the group's alternation splits as
`\x7bfirst`, the middle names bare, and `last\x7d`; a singleton registry
yields the single brace-wrapped alternative, and an empty registry yields
the two-character alternative `\x7b\x7d` (braces that are not a valid
quantifier are literal characters in a JavaScript regex). -/
def linkAlts (names : List Str) : List Str :=
  match names with
  | [] => [[lbrace, rbrace]]
  | _ => braceFirst (braceLast names)

/-- Try one alternative of the linkify capture group against the text `s`
that follows the opening backquote: the alternative's literal text, the
closing backquote, then one character that is not a line terminator.
Returns the captured name (the alternative text, braces included), the
captured ending character and the rest of the input. -/
def tryLinkAlt (s : Str) (name : Str) : Option (Str × Char × Str) :=
  if name.isPrefixOf s then
    match s.drop name.length with
    | d :: e :: r =>
      if d = backquote ∧ ¬ e = '\n' ∧ ¬ e = '\r' then some (name, e, r) else none
    | _ => none
  else none

/-- Alternation: the regex engine tries the alternatives left to right and
takes the first for which the rest of the pattern also matches. -/
def tryLinkList (alts : List Str) (s : Str) : Option (Str × Char × Str) :=
  match alts with
  | [] => none
  | a :: rest =>
    match tryLinkAlt s a with
    | some res => some res
    | none => tryLinkList rest s

/-- Match the linkify regex at the start of `s`: an opening backquote
followed by one of the (brace-decorated) alternatives of `linkAlts`. -/
def tryLinkMatch (alts : List Str) (s : Str) : Option (Str × Char × Str) :=
  match s with
  | c :: r =>
    if c = backquote then tryLinkList alts r
    else none
  | [] => none

/-- Worker of the linkify pass.  Every match consumes at least two
characters (`tryLinkMatch_shrink`), so a fuel equal to the input length
always suffices; fuel only makes the recursion structural.  The callback
first keeps a match whose following character is `]` (already a link);
otherwise it calls `getFunction(name)!` — `none` models the lookup finding
no entry for the captured name (as happens for every brace-carrying
capture), whose `.name` access then throws, rejecting the whole pass. -/
def linkifyAux (alts : List Str) (getFn : Str → Option (Str × Str)) :
    Nat → Str → Option Str
  | 0, s => some s
  | _ + 1, [] => some []
  | fuel + 1, c :: r =>
    match tryLinkMatch alts (c :: r) with
    | some (name, ending, rest) =>
      if ending = ']' then
        (linkifyAux alts getFn fuel rest).map
          (fun t => backquote :: (name ++ backquote :: ending :: []) ++ t)
      else
        match getFn name with
        | none => none
        | some fn => (linkifyAux alts getFn fuel rest).map (fun t => linkRepl fn ++ t)
    | none => (linkifyAux alts getFn fuel r).map (fun t => c :: t)

/-- Model of the linkify pass (first `code.replace` of the transform): every
occurrence of an opening backquote, a group alternative (`\x7bfirst`, a bare
middle name, or `last\x7d`), a closing backquote and one further character
is replaced by `[‵fn.name‵](fn.docs) ` — unless the following character is
`]` (already a link), in which case the whole match is kept.  The scan
resumes after each match.  `none` models the `TypeError` thrown when
`getFunction` finds no entry for the captured name. -/
def linkify (names : List Str) (getFn : Str → Option (Str × Str)) (s : Str) :
    Option Str :=
  linkifyAux (linkAlts names) getFn s.length s

/-- The absolute-URL pattern `https://vueuse.org/`. -/
def httpsPat : Str := "https://vueuse.org/".data

/-- The absolute-URL pattern `http://vueuse.org/`. -/
def httpPat : Str := "http://vueuse.org/".data

/-- Worker of the URL rewrite; fuel only makes the recursion structural
(a fuel equal to the input length always suffices). -/
def urlRewriteAux : Nat → Str → Str
  | 0, s => s
  | _ + 1, [] => []
  | fuel + 1, c :: r =>
    if httpsPat.isPrefixOf (c :: r) then '/' :: urlRewriteAux fuel ((c :: r).drop 19)
    else if httpPat.isPrefixOf (c :: r) then '/' :: urlRewriteAux fuel ((c :: r).drop 18)
    else c :: urlRewriteAux fuel r

/-- Model of `code.replace(/https?:\/\/vueuse\.org\//g, '/')`: every
absolute vueuse.org URL prefix becomes a site-relative `/`. -/
def urlRewrite (s : Str) : Str := urlRewriteAux s.length s

/-- JavaScript `id.split('/')`. -/
def splitOnSlash : Str → List Str
  | [] => [([] : Str)]
  | c :: r =>
    if c = '/' then ([] : Str) :: splitOnSlash r
    else
      match splitOnSlash r with
      | [] => [[c]]
      | h :: t => (c :: h) :: t

/-- JavaScript `list.slice(-3)`: the last (at most) three elements. -/
def lastN (n : Nat) (l : List Str) : List Str := l.drop (l.length - n)

/-- Whether a character belongs to the regex `\w` class. -/
def isWordChar (c : Char) : Bool :=
  ('a' ≤ c ∧ c ≤ 'z') ∨ ('A' ≤ c ∧ c ≤ 'Z') ∨ ('0' ≤ c ∧ c ≤ '9') ∨ c = '_'

/-- A word boundary follows: end of input or a non-word character. -/
def boundaryOk : Str → Bool
  | [] => true
  | d :: _ => ! isWordChar d

/-- Model of `id.match(/\.md\b/)` being truthy: some occurrence of `.md`
followed by a word boundary. -/
def matchesMd : Str → Bool
  | [] => false
  | c :: r =>
    (".md".data.isPrefixOf (c :: r) && boundaryOk ((c :: r).drop 3))
    || matchesMd r

/-- `functionNames.find(n => n.toLowerCase() === _name.toLowerCase()) || _name`:
the registry entry matching case-insensitively, with JavaScript falsy
semantics for `||` (an empty found string still falls back to `_name`). -/
def resolveName (fns : List Str) (nm : Str) : Str :=
  match fns.find? (fun n => jsToLower n = jsToLower nm) with
  | some n => if n = [] then nm else n
  | none => nm

/-- The external collaborators and registries of the transform, injected as
read-only values per the design document: the formatter, the transpiler, the
twoslasher, the function-name registry with its docs-link lookup, and the
footer/header assembly of lines 85–97 (out of core scope: type-declaration
extraction, demo discovery and section splicing), which receives the package
segment, the resolved name, the pre-fence-pass text (whose indices the
source's `sliceIndex` is computed from) and the post-fence-pass text. -/
structure Ctx where
  fmt : Str → Option Str
  transpile : Str → Str
  twoslash : Str → Str
  functionNames : List Str
  getFn : Str → Option (Str × Str)
  assemble : Str → Str → Str → Str → Str

/-- Result of the `transform` hook: `skip` models returning `null` (not a
markdown id), `err` models a thrown error / rejected promise, `ok` a
returned document. -/
inductive TfResult
  | skip
  | err
  | ok (out : Str)
deriving DecidableEq

/-- The `transform(code, id)` hook of the plugin: markdown gate, the two
link-rewriting replacements, the `id.split('/').slice(-3)` destructuring,
the function-page gate, and — on function pages — the fence pass followed by
the footer/header assembly.  A path with a single segment makes
`_name` undefined, so `_name.toLowerCase()` inside the `find` callback
throws unless the registry is empty and the callback is never invoked. -/
def transform (ctx : Ctx) (code id : Str) : TfResult :=
  if matchesMd id = false then .skip
  else
    match linkify ctx.functionNames ctx.getFn code with
    | none => .err
    | some c1 =>
      let c := urlRewrite c1
      match lastN 3 (splitOnSlash id) with
      | [pkg, nm, i] =>
        let name := resolveName ctx.functionNames nm
        if ctx.functionNames.contains name = true ∧ i = "index.md".data then
          match replaceTS (rewriteBlock ctx.fmt ctx.transpile ctx.twoslash) c with
          | none => .err
          | some c2 => .ok (ctx.assemble pkg name c c2)
        else .ok c
      | [_, _] => .ok c
      | [_] => if ctx.functionNames = [] then .ok c else .err
      | _ => .err

/-- Greedy subsequence test: `isSubseq l s` is true exactly when every
character of `l` occurs in `s` in order (possibly with other characters in
between).  Used to state "no characters are deleted". -/
def isSubseq : Str → Str → Bool
  | [], _ => true
  | _ :: _, [] => false
  | a :: l, b :: m => if a = b then isSubseq l m else isSubseq (a :: l) m

/-- Split a string at every occurrence of a separator character. -/
def splitOnChar (sep : Char) : Str → List Str
  | [] => [([] : Str)]
  | c :: r =>
    if c = sep then ([] : Str) :: splitOnChar sep r
    else
      match splitOnChar sep r with
      | [] => [[c]]
      | h :: t => (c :: h) :: t

/-- The space-separated metadata tokens of a fence annotation (claim-side
notion used by the specification's "tokens include twoslash" reading). -/
def metaTokens (s : Str) : List Str :=
  (splitOnChar ' ' s).filter (fun t => ¬ t = [])

/-- The specification's reading of `canonicalTS` for the equivalence test:
the Formatter output (newline collapse, format, trim) of the ORIGINAL,
unstripped body. -/
def canonicalTSOfOriginal (fmt : Str → Option Str) (body : Str) : Option Str :=
  (fmt (collapseNewlines body)).map jsTrim

/-- The specification's reading of `canonicalJS` with the full Formatter
configuration (newline collapse before formatting) applied on the JS side as
well. -/
def canonicalJSCollapsed (fmt : Str → Option Str) (transpile tw : Str → Str)
    (meta body : Str) : Option Str :=
  (formattedTSOf fmt tw meta body).bind fun t =>
    (fmt (collapseNewlines (transpile t))).map jsTrim

/-- The text of a document that lies outside the matched code fences: all
gaps plus the trailing unmatched text, in order. -/
def outsideText (ms : List (Str × Str × Str)) (tail : Str) : Str :=
  splice ms (ms.map fun _ => ([] : Str)) tail

/-- The identity string function, used as a trivial collaborator instance. -/
def idStr (s : Str) : Str := s

/-- A formatter instance that accepts every snippet and returns it
unchanged. -/
def fmtIdSample (s : Str) : Option Str := some s

/-- The `twoslash` fence meta as captured by the scan (leading space). -/
def metaTw : Str := " twoslash".data

/-- Sample malformed snippet on which the sample formatter throws. -/
def bodyBad1 : Str := "BAD".data

/-- A formatter instance that throws on the malformed snippet `BAD` and
accepts everything else unchanged. -/
def fmtC1 (s : Str) : Option Str := if s = bodyBad1 then none else some s

/-- Sample document with two sibling TypeScript blocks, the second
malformed. -/
def docC1 : Str := "# t\n```ts\nconst a = 1\n```\nmid\n```ts\nBAD\n```\nx".data

/-- Sample function-page id for the document above. -/
def idC1 : Str := "core/useFoo/index.md".data

/-- Collaborator context for the fail-open scenario. -/
def ctxC1 : Ctx :=
  ⟨fmtC1, idStr, idStr, ["useFoo".data], fun _ => none, fun _ _ _ _ => []⟩

/-- Sample twoslash-annotated body (an inline type-inspection marker). -/
def body2 : Str := "const a: Ref = ref(1)\n//    ^?".data

/-- The body above with the inspection annotation stripped. -/
def stripped2 : Str := "const a: Ref = ref(1)".data

/-- A twoslasher instance that strips the annotation of `body2`. -/
def tw2 (s : Str) : Str := if s = body2 then stripped2 else s

/-- The transpiled JavaScript of the sample snippet. -/
def js2 : Str := "const a = ref(1)".data

/-- A transpiler instance producing `js2`. -/
def tr2 (_ : Str) : Str := js2

/-- Sample twoslash-annotated body for the pane-structure scenario. -/
def body5 : Str := "const b: B = f(2)\n// q5".data

/-- The body above, stripped. -/
def stripped5 : Str := "const b: B = f(2)".data

/-- A twoslasher instance that strips the annotation of `body5`. -/
def tw5 (s : Str) : Str := if s = body5 then stripped5 else s

/-- The transpiled JavaScript of `body5`. -/
def js5 : Str := "const b = f(2)".data

/-- A transpiler instance producing `js5`. -/
def tr5 (_ : Str) : Str := js5

/-- Sample typed body whose JavaScript differs (for the idempotence
scenario, with an empty fence meta). -/
def body6 : Str := "const c: C = g(3)".data

/-- The transpiled JavaScript of `body6`. -/
def js6 : Str := "const c = g(3)".data

/-- A transpiler instance producing `js6`. -/
def tr6 (_ : Str) : Str := js6

/-- A twoslash-stripped body for the idempotence scenario with a
nonempty fence meta. -/
def body3 : Str := "const a = 1\n// m".data

/-- The body above, stripped. -/
def stripped3 : Str := "const a = 1".data

/-- A twoslasher instance that strips the annotation of `body3`. -/
def tw3 (s : Str) : Str := if s = body3 then stripped3 else s

/-- A transpiler instance whose output contains a blank line (a run of two
newlines). -/
def tr7 (_ : Str) : Str := "a\n\nb".data

/-- Sample body for the Formatter-configuration scenario. -/
def body7 : Str := "const d = 4".data

/-- Sample document containing an absolute vueuse.org link. -/
def code8 : Str := "see https://vueuse.org/guide now".data

/-- A non-function-page id. -/
def id8 : Str := "a/b/c.md".data

/-- Collaborator context with an empty registry. -/
def ctx8 : Ctx :=
  ⟨fmtIdSample, idStr, idStr, [], fun _ => none, fun _ _ _ _ => []⟩

/-- A fence meta whose token list includes `twoslash` among other tokens. -/
def meta9 : Str := " twoslash client".data

/-- Sample annotated body for the token-matching scenario. -/
def body9 : Str := "const e: E = h(5)\n// m9".data

/-- The body above, stripped. -/
def stripped9 : Str := "const e: E = h(5)".data

/-- A twoslasher instance that strips the annotation of `body9`. -/
def tw9 (s : Str) : Str := if s = body9 then stripped9 else s

/-- Collaborator context with a one-entry registry, for the gate scenario. -/
def ctx10 : Ctx :=
  ⟨fmtIdSample, idStr, idStr, ["useMouse".data], fun _ => none, fun _ _ _ _ => []⟩

/-- A markdown id that is not a function page of the registry. -/
def id10 : Str := "core/other/index.md".data

/-- A small document with a TypeScript fence, used to show the non-function
path leaves fences alone. -/
def code10 : Str := "hi\n```ts\nconst a: A = 1\n```\nbye".data

/-- The matches of the two-block sample document `docC1`. -/
def msC4 : List (Str × Str × Str) :=
  [("# t".data, ([] : Str), "const a = 1".data),
   ("mid".data, ([] : Str), "BAD".data)]

/-- The resolved replacements of `docC1` under the all-accepting formatter:
both blocks are `Unchanged`, so each replacement is its own match text. -/
def repsC4 : List Str :=
  [matchText [] "const a = 1".data, matchText [] "BAD".data]

/-- Characterization of the per-block replacer once both formatter calls
succeed: the whole original match for equal canonical forms, the toggle
structure (with the transpile-ready snippet in the TS pane) otherwise. -/
theorem rewriteBlock_eq (fmt : Str → Option Str) (transpile tw : Str → Str)
    (meta body t j : Str)
    (ht : formattedTSOf fmt tw meta body = some t)
    (hj : (fmt (transpile t)).map jsTrim = some j) :
    rewriteBlock fmt transpile tw meta body =
      some (if j = t then matchText meta body
            else divergedBlock meta (strippedOf tw meta body) j) := by
  unfold rewriteBlock
  rw [ht]
  dsimp only
  rw [hj]
  dsimp only
  by_cases h : j = t <;> simp [h]

/-- A Boolean list prefix yields an append decomposition. -/
theorem isPrefixOf_append {l s : Str} (h : l.isPrefixOf s = true) :
    s = l ++ s.drop l.length := by
  induction l generalizing s with
  | nil => simp
  | cons a l ih =>
    cases s with
    | nil => simp [List.isPrefixOf] at h
    | cons b s =>
      simp only [List.isPrefixOf, Bool.and_eq_true, beq_iff_eq] at h
      simpa [h.1] using ih h.2

/-- Soundness of `findFrom`: the reported index is an occurrence. -/
theorem findFrom_sound {pat l : Str} {n : Nat} (h : findFrom pat l = some n) :
    pat.isPrefixOf (l.drop n) = true := by
  induction l generalizing n with
  | nil =>
    simp only [findFrom] at h
    split at h
    · next hp => cases h; simpa using hp
    · cases h
  | cons c r ih =>
    simp only [findFrom] at h
    split at h
    · next hp => cases h; simpa using hp
    · cases hr : findFrom pat r with
      | none => rw [hr] at h; cases h
      | some m =>
        rw [hr] at h
        cases h
        simpa using ih hr

/-- Completeness of `findFrom`: an occurrence that is minimal is the one
returned. -/
theorem findFrom_complete {pat l : Str} {n : Nat}
    (hocc : pat.isPrefixOf (l.drop n) = true)
    (hmin : ∀ m, m < n → ¬ pat.isPrefixOf (l.drop m) = true) :
    findFrom pat l = some n := by
  induction l generalizing n with
  | nil =>
    have hp : pat.isPrefixOf ([] : Str) = true := by
      cases pat with
      | nil => rfl
      | cons a t => simp at hocc
    cases n with
    | zero => simp [findFrom, hp]
    | succ k => exact absurd hp (hmin 0 (Nat.succ_pos k))
  | cons c r ih =>
    cases n with
    | zero => simp only [List.drop_zero] at hocc; simp [findFrom, hocc]
    | succ k =>
      have h0 : ¬ pat.isPrefixOf (c :: r) = true := by
        simpa using hmin 0 (Nat.succ_pos k)
      have hk : findFrom pat r = some k := by
        apply ih
        · simpa using hocc
        · intro m hm
          simpa using hmin (m + 1) (Nat.succ_lt_succ hm)
      simp [findFrom, h0, hk]

/-- Soundness of the meta-group parse: it decomposes the fence line. -/
theorem parseMeta_sound {r meta rest : Str} (h : parseMeta r = some (meta, rest)) :
    r = meta ++ '\n' :: rest := by
  unfold parseMeta at h
  split at h
  · next r' =>
    split at h
    · next heq =>
      split at h
      · cases h
      · next hrun =>
        cases h
        have hd : r'.takeWhile (fun d => ¬ d = '\n') ++
            r'.dropWhile (fun d => ¬ d = '\n') = r' :=
          List.takeWhile_append_dropWhile _ _
        rw [heq] at hd
        simpa using hd.symm
    · cases h
  · cases h
    rfl
  · cases h

/-- Soundness of `tryMatchAt`: a match at the start of `s` decomposes `s`
into the full match text followed by the rest of the input. -/
theorem tryMatchAt_sound {s meta body rest : Str}
    (h : tryMatchAt s = some (meta, body, rest)) :
    s = matchText meta body ++ rest := by
  unfold tryMatchAt at h
  cases hpre : fenceTsOpen.isPrefixOf s with
  | false => rw [hpre] at h; simp at h
  | true =>
    rw [hpre] at h
    simp only [if_true] at h
    cases hp : parseMeta (s.drop 6) with
    | none => rw [hp] at h; cases h
    | some pr =>
      obtain ⟨metaP, r⟩ := pr
      rw [hp] at h
      dsimp only at h
      cases hf : findFrom closeFence (r.drop 1) with
      | none => rw [hf] at h; cases h
      | some m =>
        rw [hf] at h
        simp only [Option.some.injEq, Prod.mk.injEq] at h
        obtain ⟨h1, h2, h3⟩ := h
        subst h1 h2 h3
        have hs : s = fenceTsOpen ++ s.drop 6 := by
          simpa using isPrefixOf_append hpre
        have hr : s.drop 6 = metaP ++ '\n' :: r := parseMeta_sound hp
        have hocc : closeFence.isPrefixOf ((r.drop 1).drop m) = true :=
          findFrom_sound hf
        have hocc' : closeFence.isPrefixOf (r.drop (m + 1)) = true := by
          rw [List.drop_drop] at hocc
          rwa [Nat.add_comm] at hocc
        have hdd : (r.drop (m + 1)).drop 5 = r.drop (m + 1 + 5) := by
          rw [List.drop_drop]
        have hclose : r.drop (m + 1) = closeFence ++ r.drop (m + 1 + 5) := by
          rw [← hdd]
          simpa using isPrefixOf_append hocc'
        have hbody : r = r.take (m + 1) ++ (closeFence ++ r.drop (m + 1 + 5)) := by
          calc r = r.take (m + 1) ++ r.drop (m + 1) := (List.take_append_drop _ _).symm
            _ = r.take (m + 1) ++ (closeFence ++ r.drop (m + 1 + 5)) := by rw [hclose]
        rw [hs, hr, matchText]
        simp only [List.append_assoc, List.cons_append, List.append_cancel_left_eq]
        rw [← List.cons_append]
        rw [show ('\n' :: r : Str) = '\n' :: (r.take (m + 1) ++
          (closeFence ++ r.drop (m + 1 + 5))) from by rw [← hbody]]
        simp

/-- Soundness of `scanNext`: the input decomposes into the gap, the full
match text and the rest. -/
theorem scanNext_sound {s gap meta body rest : Str}
    (h : scanNext s = some (gap, meta, body, rest)) :
    s = gap ++ matchText meta body ++ rest := by
  induction s generalizing gap with
  | nil => simp [scanNext] at h
  | cons c r ih =>
    simp only [scanNext] at h
    split at h
    · next hm =>
      cases h
      simpa using tryMatchAt_sound hm
    · cases hr : scanNext r with
      | none => rw [hr] at h; simp at h
      | some p =>
        obtain ⟨g', m', b', rest'⟩ := p
        rw [hr] at h
        simp only [Option.map] at h
        cases h
        simpa using ih hr

/-- The match text is never empty, so the rest of the input after a match is
strictly shorter than the input. -/
theorem scanNext_shrink {s gap meta body rest : Str}
    (h : scanNext s = some (gap, meta, body, rest)) :
    rest.length < s.length := by
  have hs := scanNext_sound h
  have : s.length = gap.length + ((matchText meta body).length + rest.length) := by
    rw [hs]; simp
  have hmt : 0 < (matchText meta body).length := by
    simp [matchText, fenceTsOpen]
  omega

/-- The fuel does not matter once it is at least the input length. -/
theorem scanAllAux_fuel {f1 : Nat} : ∀ {f2 : Nat} {s : Str},
    s.length ≤ f1 → s.length ≤ f2 → scanAllAux f1 s = scanAllAux f2 s := by
  induction f1 with
  | zero =>
    intro f2 s h1 h2
    have : s = [] := List.eq_nil_of_length_eq_zero (Nat.le_zero.mp h1)
    subst this
    cases f2 with
    | zero => rfl
    | succ j => simp [scanAllAux, scanNext]
  | succ k ih =>
    intro f2 s h1 h2
    cases f2 with
    | zero =>
      have : s = [] := List.eq_nil_of_length_eq_zero (Nat.le_zero.mp h2)
      subst this
      simp [scanAllAux, scanNext]
    | succ j =>
      simp only [scanAllAux]
      cases hs : scanNext s with
      | none => rfl
      | some q =>
        obtain ⟨g, m, b, rest⟩ := q
        have hlt := scanNext_shrink hs
        have hk : rest.length ≤ k := by omega
        have hj : rest.length ≤ j := by omega
        dsimp only
        rw [ih hk hj]

/-- Unfolding lemma for `scanAll` when there is no match. -/
theorem scanAll_eq_none {s : Str} (h : scanNext s = none) : scanAll s = ([], s) := by
  unfold scanAll
  cases s with
  | nil => rfl
  | cons c r => simp [scanAllAux, h]

/-- Unfolding lemma for `scanAll` at a match. -/
theorem scanAll_eq_some {s gap meta body rest : Str}
    (h : scanNext s = some (gap, meta, body, rest)) :
    scanAll s = ((gap, meta, body) :: (scanAll rest).1, (scanAll rest).2) := by
  unfold scanAll
  cases s with
  | nil => simp [scanNext] at h
  | cons c r =>
    have hlt := scanNext_shrink h
    simp only [List.length_cons, scanAllAux, h]
    have : scanAllAux r.length rest = scanAllAux rest.length rest := by
      apply scanAllAux_fuel
      · simp at hlt; omega
      · exact Nat.le_refl _
    rw [this]

/-- A successful `tryLinkAlt` consumes at least two characters. -/
theorem tryLinkAlt_shrink {s name : Str} {n : Str} {e : Char} {rest : Str}
    (h : tryLinkAlt s name = some (n, e, rest)) : rest.length < s.length := by
  unfold tryLinkAlt at h
  split at h
  · split at h
    · next d e' r heq =>
      split at h
      · cases h
        have := congrArg List.length heq
        simp [List.length_drop] at this
        omega
      · cases h
    · cases h
  · cases h

/-- A successful `tryLinkList` consumes at least two characters. -/
theorem tryLinkList_shrink {alts : List Str} {s : Str} {n : Str} {e : Char}
    {rest : Str} (h : tryLinkList alts s = some (n, e, rest)) :
    rest.length < s.length := by
  induction alts with
  | nil => simp [tryLinkList] at h
  | cons a rest' ih =>
    simp only [tryLinkList] at h
    split at h
    · next hr => cases h; exact tryLinkAlt_shrink hr
    · exact ih h

/-- A successful `tryLinkMatch` consumes at least two characters. -/
theorem tryLinkMatch_shrink {names : List Str} {s : Str} {n : Str} {e : Char}
    {rest : Str} (h : tryLinkMatch names s = some (n, e, rest)) :
    rest.length < s.length := by
  cases s with
  | nil => simp [tryLinkMatch] at h
  | cons c r =>
    simp only [tryLinkMatch] at h
    split at h
    · exact Nat.lt_trans (tryLinkList_shrink h) (Nat.lt_succ_self _)
    · cases h

/-- A formatter failure on the transpile-ready snippet makes the block's
replacer reject. -/
theorem rewriteBlock_none_of_fmt (fmt : Str → Option Str) (transpile tw : Str → Str)
    (meta body : Str)
    (hf : fmt (collapseNewlines (strippedOf tw meta body)) = none) :
    rewriteBlock fmt transpile tw meta body = none := by
  unfold rewriteBlock formattedTSOf
  rw [hf]
  rfl

/-- The toggle replacement is never the original match text (they differ at
the second character: `<` against a backquote). -/
theorem divergedBlock_ne_matchText {m s f m' b' : Str} :
    divergedBlock m s f ≠ matchText m' b' := by
  intro h
  have h1 := congrArg (fun l : Str => l[1]?) h
  have e1 : (divergedBlock m s f)[1]? = some '<' := by
    unfold divergedBlock
    simp only [List.append_assoc]
    rw [List.getElem?_append]
    rw [if_pos (by decide)]
    decide
  have e2 : (matchText m' b')[1]? = some backquote := by
    unfold matchText
    simp only [List.append_assoc]
    rw [List.getElem?_append]
    rw [if_pos (by decide)]
    decide
  simp only [e1, e2, Option.some.injEq] at h1
  exact absurd h1 (by decide)

/-- `Promise.all` rejects as soon as any block's replacer rejects. -/
theorem collectReplacements_none {f : Str → Str → Option Str}
    {ms : List (Str × Str × Str)} {g m b : Str}
    (hmem : (g, m, b) ∈ ms) (hf : f m b = none) :
    collectReplacements f ms = none := by
  induction ms with
  | nil => simp at hmem
  | cons x ms ih =>
    obtain ⟨g', m', b'⟩ := x
    simp only [collectReplacements]
    rcases List.mem_cons.mp hmem with heq | hmem'
    · injection heq with e1 e2
      injection e2 with e3 e4
      subst e3
      subst e4
      rw [hf]
    · rw [ih hmem']
      cases f m' b' <;> rfl

/-- A resolved replacement list has one entry per match. -/
theorem collectReplacements_length {f : Str → Str → Option Str}
    {ms : List (Str × Str × Str)} {rs : List Str}
    (h : collectReplacements f ms = some rs) : rs.length = ms.length := by
  induction ms generalizing rs with
  | nil =>
    simp only [collectReplacements, Option.some.injEq] at h
    subst h
    rfl
  | cons x ms ih =>
    obtain ⟨g, m, b⟩ := x
    simp only [collectReplacements] at h
    cases hf : f m b with
    | none => rw [hf] at h; cases h
    | some r =>
      rw [hf] at h
      cases hc : collectReplacements f ms with
      | none => rw [hc] at h; cases h
      | some rs' =>
        rw [hc] at h
        dsimp only at h
        cases h
        simp [ih hc]

/-- Replacing every match of the original text by its own match text
reconstructs the original text: the scan's gaps, matches and tail partition
the input in order. -/
theorem scanAll_recompose (s : Str) :
    splice (scanAll s).1 ((scanAll s).1.map fun x => matchText x.2.1 x.2.2)
      (scanAll s).2 = s := by
  generalize hn : s.length = n
  induction n using Nat.strong_induction_on generalizing s with
  | _ n ih =>
    cases h : scanNext s with
    | none => rw [scanAll_eq_none h]; rfl
    | some q =>
      obtain ⟨g, m, b, rest⟩ := q
      rw [scanAll_eq_some h]
      dsimp only
      simp only [List.map_cons, splice]
      have hlt : rest.length < n := hn ▸ scanNext_shrink h
      rw [ih rest.length hlt rest rfl]
      exact (scanNext_sound h).symm

/-- The replacement-free splice is a subsequence of any splice with the same
matches: dropping every replacement never loses gap or tail text. -/
theorem splice_sublist (ms : List (Str × Str × Str)) (rs : List Str) (tail : Str)
    (hlen : rs.length = ms.length) :
    (splice ms (ms.map fun _ => ([] : Str)) tail).Sublist (splice ms rs tail) := by
  induction ms generalizing rs with
  | nil =>
    cases rs with
    | nil => exact List.Sublist.refl _
    | cons r rs' => simp at hlen
  | cons x ms ih =>
    obtain ⟨g, m, b⟩ := x
    cases rs with
    | nil => simp at hlen
    | cons r rs' =>
      simp only [List.map_cons, splice, List.append_nil, List.append_assoc]
      refine List.Sublist.append (List.Sublist.refl g) ?_
      have hx := ih rs' (by simpa using hlen)
      exact hx.trans (List.sublist_append_right _ _)

/-- Dropping the head of the tested pattern preserves the greedy
subsequence test. -/
theorem isSubseq_tail : ∀ {m l : Str} {x : Char},
    isSubseq (x :: l) m = true → isSubseq l m = true := by
  intro m
  induction m with
  | nil => intro l x h; simp [isSubseq] at h
  | cons b mt ih =>
    intro l x h
    simp only [isSubseq] at h
    by_cases hxb : x = b
    · rw [if_pos hxb] at h
      cases l with
      | nil => rfl
      | cons y lt =>
        simp only [isSubseq]
        by_cases hyb : y = b
        · rw [if_pos hyb]; exact ih h
        · rw [if_neg hyb]; exact h
    · rw [if_neg hxb] at h
      have h2 := ih h
      cases l with
      | nil => rfl
      | cons y lt =>
        simp only [isSubseq]
        by_cases hyb : y = b
        · rw [if_pos hyb]; exact ih h2
        · rw [if_neg hyb]; exact h2

/-- A sublist passes the greedy subsequence test. -/
theorem sublist_isSubseq {l₁ l₂ : Str} (h : l₁.Sublist l₂) :
    isSubseq l₁ l₂ = true := by
  induction h with
  | slnil => rfl
  | cons a h ih =>
    next l₁ l₂ =>
    cases l₁ with
    | nil => rfl
    | cons x l =>
      simp only [isSubseq]
      by_cases hxa : x = a
      · rw [if_pos hxa]; exact isSubseq_tail ih
      · rw [if_neg hxa]; exact ih
  | cons₂ a h ih =>
    simp only [isSubseq, if_pos rfl]
    exact ih

/-- A list is a Boolean prefix of itself followed by anything. -/
theorem isPrefixOf_self_append (l t : Str) : l.isPrefixOf (l ++ t) = true := by
  induction l with
  | nil => cases t <;> rfl
  | cons a l ih => simp [List.isPrefixOf, ih]

/-- Trimming ignores a leading space. -/
theorem lowerTrim_cons_space (l : Str) : lowerTrim (' ' :: l) = lowerTrim l := by
  simp [lowerTrim, jsTrim, List.dropWhile_cons]

/-- `takeWhile` of newline-free text followed by a newline. -/
theorem takeWhile_append_nl {l : Str} (hl : ∀ c ∈ l, ¬ c = '\n') (t : Str) :
    (l ++ '\n' :: t).takeWhile (fun d => ¬ d = '\n') = l := by
  induction l with
  | nil => simp [List.takeWhile_cons]
  | cons a l ih =>
    have ha : ¬ a = '\n' := hl a (List.mem_cons_self a l)
    have htl := ih (fun c hc => hl c (List.mem_cons_of_mem a hc))
    rw [List.cons_append, List.takeWhile_cons, if_pos (by simpa using ha), htl]

/-- `dropWhile` of newline-free text followed by a newline. -/
theorem dropWhile_append_nl {l : Str} (hl : ∀ c ∈ l, ¬ c = '\n') (t : Str) :
    (l ++ '\n' :: t).dropWhile (fun d => ¬ d = '\n') = '\n' :: t := by
  induction l with
  | nil =>
    rw [List.nil_append, List.dropWhile_cons, if_neg]
    decide
  | cons a l ih =>
    have ha : ¬ a = '\n' := hl a (List.mem_cons_self a l)
    rw [List.cons_append, List.dropWhile_cons, if_pos (by simpa using ha)]
    exact ih (fun c hc => hl c (List.mem_cons_of_mem a hc))

/-- On a nonempty input, a match at position zero is the first match. -/
theorem scanNext_of_tryMatchAt {s meta body rest : Str} (hne : s ≠ [])
    (h : tryMatchAt s = some (meta, body, rest)) :
    scanNext s = some (([] : Str), meta, body, rest) := by
  cases s with
  | nil => exact absurd rfl hne
  | cons c r => simp [scanNext, h]

/-- The emitted TS pane of a diverged block with a nonempty, newline-free
meta matches the block regex again, at position zero: the meta group gains
one extra leading space (the template's own space before the interpolated
meta) and the body group is exactly the emitted snippet, provided the
closing-fence sequence does not occur inside the snippet. -/
theorem tryMatchAt_tsPane {meta snip : Str}
    (hmne : ¬ meta = []) (hmnl : ∀ c ∈ meta, ¬ c = '\n')
    (hsne : ¬ snip = [])
    (hmin : ∀ k, k < snip.length - 1 →
      ¬ closeFence.isPrefixOf (((snip ++ closeFence).drop 1).drop k) = true) :
    tryMatchAt (tsPaneRegion meta snip) = some (' ' :: meta, snip, []) := by
  have hre : tsPaneRegion meta snip =
      fenceTsOpen ++ ' ' :: (meta ++ '\n' :: (snip ++ closeFence)) := by
    unfold tsPaneRegion
    rw [show ("\n```ts ".data : Str) = fenceTsOpen ++ [' '] from by decide]
    rw [show ("\n".data : Str) = ['\n'] from by decide]
    rw [show ("\n```\n".data : Str) = closeFence from by decide]
    simp [List.append_assoc]
  have hlen : 0 < snip.length := List.length_pos.mpr hsne
  have hfind : findFrom closeFence ((snip ++ closeFence).drop 1) =
      some (snip.length - 1) := by
    apply findFrom_complete
    · have hdd : ((snip ++ closeFence).drop 1).drop (snip.length - 1) =
          (snip ++ closeFence).drop snip.length := by
        rw [List.drop_drop]
        congr 1
        omega
      rw [hdd, List.drop_left]
      have hp := isPrefixOf_self_append closeFence []
      rwa [List.append_nil] at hp
    · exact hmin
  rw [hre]
  unfold tryMatchAt
  rw [if_pos (isPrefixOf_self_append _ _)]
  have h6 : (fenceTsOpen ++ ' ' :: (meta ++ '\n' :: (snip ++ closeFence))).drop 6 =
      ' ' :: (meta ++ '\n' :: (snip ++ closeFence)) := by
    rw [show (6 : Nat) = fenceTsOpen.length from by decide, List.drop_left]
  rw [h6]
  have hpm : parseMeta (' ' :: (meta ++ '\n' :: (snip ++ closeFence))) =
      some (' ' :: meta, snip ++ closeFence) := by
    simp only [parseMeta]
    rw [dropWhile_append_nl hmnl, takeWhile_append_nl hmnl]
    simp [hmne]
  rw [hpm]
  dsimp only
  rw [show (snip ++ closeFence).drop 1 = (snip ++ closeFence).drop 1 from rfl]
  rw [hfind]
  dsimp only
  have htake : (snip ++ closeFence).take (snip.length - 1 + 1) = snip := by
    rw [show snip.length - 1 + 1 = snip.length from by omega, List.take_left]
  have hdrop : (snip ++ closeFence).drop (snip.length - 1 + 1 + 5) = [] := by
    apply List.drop_eq_nil_of_le
    rw [List.length_append]
    rw [show closeFence.length = 5 from by decide]
    omega
  rw [htake, hdrop]

/-- C1 (counterexample): a document with two sibling blocks, the second of
which makes the formatter throw, does not fail open: the whole transform
errors (the document build crashes), even though the first sibling's own
replacement resolves fine and the document really contains two matches. -/
theorem c1_counterexample :
    transform ctxC1 docC1 idC1 = TfResult.err ∧
    (scanAll docC1).1.length = 2 ∧
    rewriteBlock fmtC1 idStr idStr [] "const a = 1".data =
      some (matchText [] "const a = 1".data) :=
  ⟨by decide, by decide, by decide⟩

/-- C1 (amended): if the formatting step for any matched block fails, there
is no per-block `Unchanged` fallback — the collected promise rejects and the
whole document's fence pass produces no output at all; `ts.transpileModule`
is modelled as total since that API has no failure path. -/
theorem c1_format_failure_aborts_document (fmt : Str → Option Str)
    (transpile tw : Str → Str) (s gap meta body : Str)
    (hmem : (gap, meta, body) ∈ (scanAll s).1)
    (hfmt : fmt (collapseNewlines (strippedOf tw meta body)) = none) :
    replaceTS (rewriteBlock fmt transpile tw) s = none := by
  unfold replaceTS
  rw [collectReplacements_none hmem
    (rewriteBlock_none_of_fmt fmt transpile tw meta body hfmt)]
  rfl

/-- C1 (witness): the amended theorem applied to the sample document. -/
theorem c1_format_failure_aborts_document_witness :
    (("mid".data, ([] : Str), bodyBad1) ∈ (scanAll docC1).1) ∧
    fmtC1 (collapseNewlines (strippedOf idStr [] bodyBad1)) = none ∧
    replaceTS (rewriteBlock fmtC1 idStr idStr) docC1 = none :=
  ⟨by decide, by decide,
    c1_format_failure_aborts_document fmtC1 idStr idStr docC1 "mid".data []
      bodyBad1 (by decide) (by decide)⟩

/-- C2 (counterexample): for a twoslash block whose result is Diverged, the
emitted TS pane holds the annotation-stripped snippet, not the original: the
original body occurs nowhere in the replacement while the stripped body
does. -/
theorem c2_counterexample :
    rewriteBlock fmtIdSample tr2 tw2 metaTw body2 =
      some (divergedBlock metaTw stripped2 js2) ∧
    ¬ stripped2 = body2 ∧
    (findFrom body2 (divergedBlock metaTw stripped2 js2)).isSome = false ∧
    (findFrom stripped2 (divergedBlock metaTw stripped2 js2)).isSome = true :=
  ⟨by decide, by decide, by decide, by decide⟩

/-- C2 (amended): for a twoslash-flagged block with Diverged result, the TS
pane of the replacement contains the twoslasher output `tw body` — the
stripped text is displayed, and the same stripped text is what the JS pane
is derived from. -/
theorem c2_ts_pane_shows_stripped (fmt : Str → Option Str)
    (transpile tw : Str → Str) (meta body t j : Str)
    (hts : lowerTrim meta = twoslashTok)
    (ht : formattedTSOf fmt tw meta body = some t)
    (hj : (fmt (transpile t)).map jsTrim = some j)
    (hne : ¬ j = t) :
    rewriteBlock fmt transpile tw meta body =
      some (divergedBlock meta (tw body) j) := by
  rw [rewriteBlock_eq fmt transpile tw meta body t j ht hj, if_neg hne]
  unfold strippedOf
  rw [if_pos hts]

/-- C2 (witness): the amended theorem applied to the sample twoslash
block. -/
theorem c2_ts_pane_shows_stripped_witness :
    lowerTrim metaTw = twoslashTok ∧
    formattedTSOf fmtIdSample tw2 metaTw body2 = some stripped2 ∧
    (fmtIdSample (tr2 stripped2)).map jsTrim = some js2 ∧
    ¬ js2 = stripped2 ∧
    rewriteBlock fmtIdSample tr2 tw2 metaTw body2 =
      some (divergedBlock metaTw (tw2 body2) js2) :=
  ⟨by decide, by decide, by decide, by decide,
    c2_ts_pane_shows_stripped fmtIdSample tr2 tw2 metaTw body2 stripped2 js2
      (by decide) (by decide) (by decide) (by decide)⟩

/-- C3 (counterexample): a twoslash block is decided `Unchanged` by the
code although the canonical JS differs from the Formatter output of the
original, unstripped body — the decision is taken against the stripped
text, not the original. -/
theorem c3_counterexample :
    rewriteBlock fmtIdSample idStr tw3 metaTw body3 =
      some (matchText metaTw body3) ∧
    ¬ formattedJSOf fmtIdSample idStr tw3 metaTw body3 =
        canonicalTSOfOriginal fmtIdSample body3 :=
  ⟨by decide, by decide⟩

/-- C3 (amended): the result is `Unchanged` — the whole original match text
passed through byte-identically — exactly when the formatted JS equals
`formattedTS`, the Formatter output of the transpile-ready (annotation
stripped when twoslash-flagged) body. -/
theorem c3_unchanged_iff_formatted_equal (fmt : Str → Option Str)
    (transpile tw : Str → Str) (meta body t j : Str)
    (ht : formattedTSOf fmt tw meta body = some t)
    (hj : (fmt (transpile t)).map jsTrim = some j) :
    (rewriteBlock fmt transpile tw meta body = some (matchText meta body) ↔
      j = t) := by
  rw [rewriteBlock_eq fmt transpile tw meta body t j ht hj]
  constructor
  · intro h
    by_contra hne
    rw [if_neg hne] at h
    exact divergedBlock_ne_matchText (Option.some.inj h)
  · intro h
    rw [if_pos h]

/-- C3 (witness): the amended theorem applied to the sample block. -/
theorem c3_unchanged_iff_formatted_equal_witness :
    formattedTSOf fmtIdSample tw3 metaTw body3 = some stripped3 ∧
    (fmtIdSample (idStr stripped3)).map jsTrim = some stripped3 ∧
    (rewriteBlock fmtIdSample idStr tw3 metaTw body3 =
        some (matchText metaTw body3) ↔ stripped3 = stripped3) :=
  ⟨by decide, by decide,
    c3_unchanged_iff_formatted_equal fmtIdSample idStr tw3 metaTw body3
      stripped3 stripped3 (by decide) (by decide)⟩

/-- C4: when every block's replacement resolves, the document pass returns
the splice of the resolved replacements, one per match and in match order,
into the gaps and the tail of the original scan — whose segments, with the
original match texts, reconstruct the original document, so all boundaries
refer to the original text. -/
theorem c4_order_preserved (f : Str → Str → Option Str) (s : Str)
    (ms : List (Str × Str × Str)) (tail : Str) (reps : List Str)
    (hscan : scanAll s = (ms, tail))
    (hreps : collectReplacements f ms = some reps) :
    replaceTS f s = some (splice ms reps tail) ∧
    reps.length = ms.length ∧
    splice ms (ms.map fun x => matchText x.2.1 x.2.2) tail = s := by
  refine ⟨?_, collectReplacements_length hreps, ?_⟩
  · unfold replaceTS
    rw [hscan]
    dsimp only
    rw [hreps]
    rfl
  · have h := scanAll_recompose s
    rw [hscan] at h
    exact h

/-- C4 (witness): the theorem applied to the two-block sample document with
a formatter that accepts everything. -/
theorem c4_order_preserved_witness :
    scanAll docC1 = (msC4, "x".data) ∧
    collectReplacements (rewriteBlock fmtIdSample idStr idStr) msC4 =
      some repsC4 ∧
    (replaceTS (rewriteBlock fmtIdSample idStr idStr) docC1 =
        some (splice msC4 repsC4 "x".data) ∧
      repsC4.length = msC4.length ∧
      splice msC4 (msC4.map fun x => matchText x.2.1 x.2.2) "x".data = docC1) :=
  ⟨by decide, by decide,
    c4_order_preserved (rewriteBlock fmtIdSample idStr idStr) docC1 msC4
      "x".data repsC4 (by decide) (by decide)⟩

/-- C5 (counterexample): for a twoslash block with Diverged result the TS
pane's body is the stripped snippet, so the replacement is not the toggle
holding the original body the claim describes. -/
theorem c5_counterexample :
    rewriteBlock fmtIdSample tr5 tw5 metaTw body5 =
      some (divergedBlock metaTw stripped5 js5) ∧
    ¬ stripped5 = body5 ∧
    ¬ divergedBlock metaTw stripped5 js5 = divergedBlock metaTw body5 js5 :=
  ⟨by decide, by decide, by decide⟩

/-- C5 (amended): a Diverged block's replacement is the toggle container
with exactly two pane-marker-wrapped sub-blocks: a TS pane whose fence is
`‵‵‵ts ` followed by the captured meta and whose body is the transpile-ready
(possibly annotation-stripped) snippet, and a JS pane with the fixed `js`
tag and the formatted JS as body. -/
theorem c5_diverged_structure (fmt : Str → Option Str)
    (transpile tw : Str → Str) (meta body t j : Str)
    (ht : formattedTSOf fmt tw meta body = some t)
    (hj : (fmt (transpile t)).map jsTrim = some j)
    (hne : ¬ j = t) :
    rewriteBlock fmt transpile tw meta body =
      some (divergedBlock meta (strippedOf tw meta body) j) ∧
    divergedBlock meta (strippedOf tw meta body) j =
      "\n<CodeToggle>\n<div class=\"code-block-ts\">\n".data ++
        tsPaneRegion meta (strippedOf tw meta body) ++
        "\n</div>\n<div class=\"code-block-js\">\n\n```js\n".data ++ j ++
        "\n```\n\n</div>\n</CodeToggle>\n".data := by
  refine ⟨?_, rfl⟩
  rw [rewriteBlock_eq fmt transpile tw meta body t j ht hj, if_neg hne]

/-- C5 (witness): the amended theorem applied to the sample block. -/
theorem c5_diverged_structure_witness :
    formattedTSOf fmtIdSample tw5 metaTw body5 = some stripped5 ∧
    (fmtIdSample (tr5 stripped5)).map jsTrim = some js5 ∧
    ¬ js5 = stripped5 ∧
    rewriteBlock fmtIdSample tr5 tw5 metaTw body5 =
      some (divergedBlock metaTw (strippedOf tw5 metaTw body5) js5) :=
  ⟨by decide, by decide, by decide,
    (c5_diverged_structure fmtIdSample tr5 tw5 metaTw body5 stripped5 js5
      (by decide) (by decide) (by decide)).1⟩

/-- C6 (counterexample): a Diverged block with an empty fence meta emits a
TS pane whose fence line carries a trailing space (`‵‵‵ts ` + empty meta),
which the block regex cannot match — the second pass finds no match at all
in the emitted structure, so it does not reproduce the first pass's
Diverged decision for the block. -/
theorem c6_counterexample :
    rewriteBlock fmtIdSample tr6 idStr [] body6 =
      some (divergedBlock [] body6 js6) ∧
    ¬ divergedBlock [] body6 js6 = matchText [] body6 ∧
    (scanAll (divergedBlock [] body6 js6)).1 = [] :=
  ⟨by decide, by decide, by decide⟩

/-- C6 (amended): for a Diverged block with a nonempty, newline-free meta,
re-scanning the emitted TS pane alone re-matches it (meta gains one leading
space, body is the emitted snippet) and — provided the twoslasher is
idempotent on the snippet and the snippet is nonempty and free of the
closing-fence sequence — the second pass reaches the same Diverged decision
with the same JS pane; an empty-meta pane, by the counterexample, is not
re-matched at all. -/
theorem c6_rescan_same_decision (fmt : Str → Option Str)
    (transpile tw : Str → Str) (meta body snip t j : Str)
    (hsnip : strippedOf tw meta body = snip)
    (hmne : ¬ meta = []) (hmnl : ∀ c ∈ meta, ¬ c = '\n')
    (hsne : ¬ snip = [])
    (hmin : ∀ k, k < snip.length - 1 →
      ¬ closeFence.isPrefixOf (((snip ++ closeFence).drop 1).drop k) = true)
    (htw : lowerTrim meta = twoslashTok → tw snip = snip)
    (ht : formattedTSOf fmt tw meta body = some t)
    (hj : (fmt (transpile t)).map jsTrim = some j)
    (hne : ¬ j = t) :
    scanNext (tsPaneRegion meta snip) = some (([] : Str), ' ' :: meta, snip, []) ∧
    rewriteBlock fmt transpile tw (' ' :: meta) snip =
      some (divergedBlock (' ' :: meta) snip j) := by
  constructor
  · apply scanNext_of_tryMatchAt
    · intro hnil
      have hlen := congrArg List.length hnil
      simp [tsPaneRegion] at hlen
    · exact tryMatchAt_tsPane hmne hmnl hsne hmin
  · have hstr2 : strippedOf tw (' ' :: meta) snip = snip := by
      unfold strippedOf
      rw [lowerTrim_cons_space]
      by_cases hc : lowerTrim meta = twoslashTok
      · rw [if_pos hc]
        exact htw hc
      · rw [if_neg hc]
    have ht2 : formattedTSOf fmt tw (' ' :: meta) snip = some t := by
      unfold formattedTSOf
      rw [hstr2]
      unfold formattedTSOf at ht
      rw [hsnip] at ht
      exact ht
    rw [rewriteBlock_eq fmt transpile tw (' ' :: meta) snip t j ht2 hj,
      if_neg hne, hstr2]

/-- C6 (witness): the amended theorem applied to the sample twoslash
block. -/
theorem c6_rescan_same_decision_witness :
    strippedOf tw2 metaTw body2 = stripped2 ∧
    (¬ metaTw = []) ∧ (∀ c ∈ metaTw, ¬ c = '\n') ∧ (¬ stripped2 = []) ∧
    (∀ k, k < stripped2.length - 1 →
      ¬ closeFence.isPrefixOf
          (((stripped2 ++ closeFence).drop 1).drop k) = true) ∧
    (lowerTrim metaTw = twoslashTok → tw2 stripped2 = stripped2) ∧
    formattedTSOf fmtIdSample tw2 metaTw body2 = some stripped2 ∧
    (fmtIdSample (tr2 stripped2)).map jsTrim = some js2 ∧
    (¬ js2 = stripped2) ∧
    (scanNext (tsPaneRegion metaTw stripped2) =
        some (([] : Str), ' ' :: metaTw, stripped2, []) ∧
      rewriteBlock fmtIdSample tr2 tw2 (' ' :: metaTw) stripped2 =
        some (divergedBlock (' ' :: metaTw) stripped2 js2)) :=
  ⟨by decide, by decide, by decide, by decide, by decide, by decide,
    by decide, by decide, by decide,
    c6_rescan_same_decision fmtIdSample tr2 tw2 metaTw body2 stripped2
      stripped2 js2 (by decide) (by decide) (by decide) (by decide)
      (by decide) (by decide) (by decide) (by decide) (by decide)⟩

/-- C7 (counterexample): only the TS side collapses newline runs before
formatting — a transpiler output containing a blank line reaches the JS pane
with the run intact, and the code's canonical JS differs from the claim's
fully-collapsing reading. -/
theorem c7_counterexample :
    rewriteBlock fmtIdSample tr7 idStr [] body7 =
      some (divergedBlock [] body7 "a\n\nb".data) ∧
    ¬ collapseNewlines "a\n\nb".data = "a\n\nb".data ∧
    ¬ formattedJSOf fmtIdSample tr7 idStr [] body7 =
        canonicalJSCollapsed fmtIdSample tr7 idStr [] body7 :=
  ⟨by decide, by decide, by decide⟩

/-- C7 (amended): both panes use the same formatter function and are
trimmed, but the newline collapse is applied only to the TS-side input; the
two pipelines agree exactly when the transpiler output contains no
consecutive-newline run. -/
theorem c7_no_collapse_on_js_side (fmt : Str → Option Str)
    (transpile tw : Str → Str) (meta body t : Str)
    (ht : formattedTSOf fmt tw meta body = some t)
    (hcol : collapseNewlines (transpile t) = transpile t) :
    formattedJSOf fmt transpile tw meta body =
      canonicalJSCollapsed fmt transpile tw meta body := by
  unfold formattedJSOf canonicalJSCollapsed
  rw [ht]
  simp only [Option.some_bind]
  rw [hcol]

/-- C7 (witness): the amended theorem applied to a transpiler without blank
lines in its output. -/
theorem c7_no_collapse_on_js_side_witness :
    formattedTSOf fmtIdSample tw3 metaTw body3 = some stripped3 ∧
    collapseNewlines (idStr stripped3) = idStr stripped3 ∧
    formattedJSOf fmtIdSample idStr tw3 metaTw body3 =
      canonicalJSCollapsed fmtIdSample idStr tw3 metaTw body3 :=
  ⟨by decide, by decide,
    c7_no_collapse_on_js_side fmtIdSample idStr tw3 metaTw body3 stripped3
      (by decide) (by decide)⟩

/-- C8 (counterexample): the transform deletes characters outside any code
fence: an absolute `vueuse.org` link is shortened to a site-relative one, so
the original document is not even a subsequence of the output. -/
theorem c8_counterexample :
    transform ctx8 code8 id8 = TfResult.ok "see /guide now".data ∧
    isSubseq code8 "see /guide now".data = false :=
  ⟨by decide, by decide⟩

/-- C8 (amended): the fence-rewriting pass itself deletes nothing outside
the replaced fences — every gap and the trailing text of the original scan
survive, in order, into the output; the deletions of the claim's scope occur
only in the two earlier link-rewriting replacements. -/
theorem c8_outside_text_preserved (f : Str → Str → Option Str) (s out : Str)
    (ms : List (Str × Str × Str)) (tail : Str)
    (hscan : scanAll s = (ms, tail))
    (hout : replaceTS f s = some out) :
    isSubseq (outsideText ms tail) out = true := by
  unfold replaceTS at hout
  rw [hscan] at hout
  dsimp only at hout
  cases hc : collectReplacements f ms with
  | none => rw [hc] at hout; cases hout
  | some reps =>
    rw [hc] at hout
    simp only [Option.map] at hout
    cases hout
    unfold outsideText
    exact sublist_isSubseq (splice_sublist ms reps tail (collectReplacements_length hc))

/-- C8 (witness): the amended theorem applied to the sample document. -/
theorem c8_outside_text_preserved_witness :
    scanAll docC1 = (msC4, "x".data) ∧
    replaceTS (rewriteBlock fmtIdSample idStr idStr) docC1 = some docC1 ∧
    isSubseq (outsideText msC4 "x".data) docC1 = true :=
  ⟨by decide, by decide,
    c8_outside_text_preserved (rewriteBlock fmtIdSample idStr idStr) docC1
      docC1 msC4 "x".data (by decide) (by decide)⟩

/-- C9 (counterexample): a fence whose space-separated tokens include
`twoslash` alongside another token is not stripped — the comparison is a
whole-string equality on the trimmed, lowercased meta, not token
membership — while a meta consisting of the bare token is stripped. -/
theorem c9_counterexample :
    (metaTokens (jsToLower meta9)).contains twoslashTok = true ∧
    strippedOf tw9 meta9 body9 = body9 ∧
    ¬ tw9 body9 = body9 ∧
    strippedOf tw9 metaTw body9 = tw9 body9 :=
  ⟨by decide, by decide, by decide, by decide⟩

/-- C9 (amended): for a twoslasher that actually changes the body, the
stripping step runs exactly when the entire trimmed, lowercased meta string
equals `twoslash`. -/
theorem c9_strip_iff_exact_meta (tw : Str → Str) (meta body : Str)
    (h : ¬ tw body = body) :
    (strippedOf tw meta body = tw body ↔ lowerTrim meta = twoslashTok) := by
  unfold strippedOf
  by_cases hc : lowerTrim meta = twoslashTok
  · rw [if_pos hc]
    simp [hc]
  · rw [if_neg hc]
    constructor
    · intro hb
      exact absurd hb.symm h
    · intro hc2
      exact absurd hc2 hc

/-- C9 (witness): the amended theorem applied to the sample meta with two
tokens: no stripping happens. -/
theorem c9_strip_iff_exact_meta_witness :
    (¬ tw9 body9 = body9) ∧
    (strippedOf tw9 meta9 body9 = tw9 body9 ↔ lowerTrim meta9 = twoslashTok) :=
  ⟨by decide, c9_strip_iff_exact_meta tw9 meta9 body9 (by decide)⟩

/-- C10: for a markdown id splitting into at least three segments whose
function-page gate is false — the case-insensitively resolved name is not in
the registry, or the last segment is not `index.md` — and whose link pass
completes (no brace-form match makes the `getFunction(name)!` lookup throw),
the transform returns exactly the link-rewritten document: no fence pass, no
toggle structure, no header or footer assembly. -/
theorem c10_link_rewriting_only (ctx : Ctx) (code id pkg nm i c1 : Str)
    (hmd : matchesMd id = true)
    (hlink : linkify ctx.functionNames ctx.getFn code = some c1)
    (hparts : lastN 3 (splitOnSlash id) = [pkg, nm, i])
    (hgate : ¬ (ctx.functionNames.contains (resolveName ctx.functionNames nm) = true ∧
      i = "index.md".data)) :
    transform ctx code id = TfResult.ok (urlRewrite c1) := by
  unfold transform
  rw [if_neg (by simp [hmd])]
  rw [hlink]
  dsimp only
  rw [hparts]
  dsimp only
  rw [if_neg hgate]

/-- C10 (witness): the theorem applied to a registry and an id of another
function's page; the link pass matches nothing (the registry's only
alternative is the brace-wrapped name) and returns the document unchanged. -/
theorem c10_link_rewriting_only_witness :
    matchesMd id10 = true ∧
    linkify ctx10.functionNames ctx10.getFn code10 = some code10 ∧
    lastN 3 (splitOnSlash id10) = ["core".data, "other".data, "index.md".data] ∧
    (¬ (ctx10.functionNames.contains
          (resolveName ctx10.functionNames "other".data) = true ∧
        "index.md".data = "index.md".data)) ∧
    transform ctx10 code10 id10 = TfResult.ok (urlRewrite code10) :=
  ⟨by decide, by decide, by decide, by decide,
    c10_link_rewriting_only ctx10 code10 id10 "core".data "other".data
      "index.md".data code10 (by decide) (by decide) (by decide) (by decide)⟩
